import Mathlib

/-!
Verification development for the COBOL documentation agent
(`attached_assets/agent_fixed.py`, class `COBOLDocumentationAgent`).

Strings are embedded as `List Char` (named `Str` below); Python string
literals are injected via `str`.  All scanning functions are written either
by structural recursion or with an explicit fuel argument equal to the
length of the scanned text, so that every definition evaluates by kernel
reduction on concrete inputs.

Regular-expression uses in the source are embedded by deterministic
scanners that reproduce the leftmost-match / backtracking behaviour of the
concrete patterns appearing in the code (`PROGRAM-ID\s*\.\s*([\w-]+)`,
`([\w-]+)\s+DIVISION`, the fenced-block patterns, and the two heading
patterns of `_separate_thinking_process`); the correspondence is argued in
the doc comment of each scanner.  Python's `\w` and `\s` are modelled at
ASCII granularity, and dictionaries carrying the structured analysis are
modelled by a structure of optional fields (absent key = `none`).
-/

set_option maxRecDepth 20000

abbrev Str := List Char

def str (s : String) : Str := s.data

/-- ASCII model of Python's whitespace class (`\s`, `str.strip`, `str.split`). -/
def isPyWS (c : Char) : Bool :=
  c = ' ' || c = '\t' || c = '\n' || c = '\r' || c = Char.ofNat 11 || c = Char.ofNat 12

/-- ASCII model of Python's `\w` regex class. -/
def isWordChar (c : Char) : Bool :=
  (c ≥ 'a' && c ≤ 'z') || (c ≥ 'A' && c ≤ 'Z') || (c ≥ '0' && c ≤ '9') || c = '_'

/-- Character class `[\w-]` used by both regexes of the heuristic pre-parse. -/
def isWordHy (c : Char) : Bool := isWordChar c || c = '-'

/-- Python `str.strip()`: drop leading whitespace. -/
def dropLeftWS (s : Str) : Str := s.dropWhile isPyWS

/-- Python `str.strip()`: drop leading and trailing whitespace. -/
def stripWS (s : Str) : Str := ((dropLeftWS s).reverse.dropWhile isPyWS).reverse

/-- Case-insensitive (ASCII lower-casing) equality of characters. -/
def chEqCI (a b : Char) : Bool := a.toLower = b.toLower

/-- Case-insensitive prefix test, used for the `re.IGNORECASE` patterns. -/
def isPrefixCI : Str → Str → Bool
  | [], _ => true
  | _ :: _, [] => false
  | p :: ps, c :: cs => chEqCI p c && isPrefixCI ps cs

/-- Substring occurrence test (`pat in s` in Python, for nonempty `pat`). -/
def subB (p : Str) : Str → Bool
  | [] => p.isPrefixOf []
  | s@(_ :: rest) => p.isPrefixOf s || subB p rest

/-- Split at the first occurrence of `p`: `some (a, b)` with `s = a ++ p ++ b`
where `a` is the shortest such prefix; `none` when `p` does not occur. -/
def splitFirst (p : Str) : Str → Option (Str × Str)
  | [] => if p.isPrefixOf [] then some ([], []) else none
  | s@(c :: rest) =>
    if p.isPrefixOf s then some ([], s.drop p.length)
    else match splitFirst p rest with
         | some (a, b) => some (c :: a, b)
         | none => none

/-- Python `s.count(pat)` for nonempty `pat`: non-overlapping occurrences,
scanning left to right.  Fuel-driven so that it unfolds by kernel reduction;
callers pass `s.length` as fuel. -/
def countSubAux (p : Str) : Nat → Str → Nat
  | 0, _ => 0
  | fuel + 1, s =>
    if p ≠ [] && p.isPrefixOf s then 1 + countSubAux p fuel (s.drop p.length)
    else match s with
         | [] => 0
         | _ :: rest => countSubAux p fuel rest

def countSub (p s : Str) : Nat := countSubAux p s.length s

/-- Python `len(s.split())`: number of maximal non-whitespace runs. -/
def wcAux : Bool → Str → Nat
  | _, [] => 0
  | inw, c :: r =>
    if isPyWS c then wcAux false r
    else (if inw then 0 else 1) + wcAux true r

def wordCount (s : Str) : Nat := wcAux false s

theorem subB_of_isPrefixOf {p s : Str} (h : p.isPrefixOf s = true) : subB p s = true := by
  cases s with
  | nil => simpa [subB] using h
  | cons c rest => simp [subB, h]

theorem subB_exists_of_eq {p u v : Str} : subB p (u ++ p ++ v) = true := by
  induction u with
  | nil =>
    apply subB_of_isPrefixOf
    rw [List.isPrefixOf_iff_prefix]
    exact (List.prefix_append p v)
  | cons c u ih =>
    show (p.isPrefixOf ((c :: u) ++ p ++ v) || subB p (u ++ p ++ v)) = true
    rw [ih, Bool.or_true]

theorem exists_of_subB {p s : Str} (h : subB p s = true) : ∃ u v, s = u ++ p ++ v := by
  induction s with
  | nil =>
    refine ⟨[], [], ?_⟩
    simp only [subB] at h
    rw [List.isPrefixOf_iff_prefix] at h
    simpa using (List.prefix_nil.mp h).symm
  | cons c rest ih =>
    simp only [subB, Bool.or_eq_true] at h
    cases h with
    | inl h =>
      rw [List.isPrefixOf_iff_prefix] at h
      obtain ⟨t, ht⟩ := h
      exact ⟨[], t, by simp [ht.symm]⟩
    | inr h =>
      obtain ⟨u, v, huv⟩ := ih h
      exact ⟨c :: u, v, by simp [huv]⟩

theorem subB_iff (p s : Str) : subB p s = true ↔ ∃ u v, s = u ++ p ++ v := by
  constructor
  · exact exists_of_subB
  · rintro ⟨u, v, rfl⟩; exact subB_exists_of_eq

theorem subB_append_left {p a : Str} (b : Str) (h : subB p a = true) :
    subB p (a ++ b) = true := by
  obtain ⟨u, v, rfl⟩ := exists_of_subB h
  have : u ++ p ++ v ++ b = u ++ p ++ (v ++ b) := by simp
  rw [this]; exact subB_exists_of_eq

theorem subB_append_right {p b : Str} (a : Str) (h : subB p b = true) :
    subB p (a ++ b) = true := by
  obtain ⟨u, v, rfl⟩ := exists_of_subB h
  have : a ++ (u ++ p ++ v) = (a ++ u) ++ p ++ v := by simp
  rw [this]; exact subB_exists_of_eq

theorem subB_trans {p q s : Str} (hpq : subB p q = true) (hqs : subB q s = true) :
    subB p s = true := by
  obtain ⟨u, v, rfl⟩ := exists_of_subB hqs
  obtain ⟨a, b, rfl⟩ := exists_of_subB hpq
  have : u ++ (a ++ p ++ b) ++ v = (u ++ a) ++ p ++ (b ++ v) := by simp
  rw [this]; exact subB_exists_of_eq

theorem splitFirst_eq {p : Str} : ∀ {s a b : Str},
    splitFirst p s = some (a, b) → s = a ++ p ++ b := by
  intro s
  induction s with
  | nil =>
    intro a b h
    simp only [splitFirst] at h
    by_cases hp : p.isPrefixOf ([] : Str) = true
    · rw [if_pos hp] at h
      cases h
      rw [List.isPrefixOf_iff_prefix] at hp
      have hpnil : p = [] := List.prefix_nil.mp hp
      simp [hpnil]
    · rw [if_neg hp] at h
      cases h
  | cons c rest ih =>
    intro a b h
    simp only [splitFirst] at h
    by_cases hp : p.isPrefixOf (c :: rest) = true
    · rw [if_pos hp] at h
      cases h
      rw [List.isPrefixOf_iff_prefix] at hp
      obtain ⟨t, ht⟩ := hp
      conv_lhs => rw [← ht]
      simp [← ht, List.drop_left]
    · rw [if_neg hp] at h
      cases hsp : splitFirst p rest with
      | none => rw [hsp] at h; cases h
      | some ab =>
        obtain ⟨a', b'⟩ := ab
        rw [hsp] at h
        cases h
        have := ih hsp
        simp [this]

/-- Values storable in the agent's `user_preferences` dictionary: the code
stores strings (`detail_level`, `audience`, ...) and booleans
(`include_examples`, `enhanced_diagrams`). -/
inductive PVal where
  | s (v : Str)
  | b (v : Bool)
  deriving DecidableEq

/-- The `user_preferences` dict, modelled as an association list in which the
leftmost binding for a key is the current one. -/
abbrev Prefs := List (Str × PVal)

/-- `set_user_preference(key, value)`: `self.user_preferences[key] = value`. -/
def set_user_preference (p : Prefs) (k : Str) (v : PVal) : Prefs := (k, v) :: p

/-- `get_user_preference(key, default)`: `self.user_preferences.get(key, default)`. -/
def get_user_preference : Prefs → Str → PVal → PVal
  | [], _, d => d
  | (k', v) :: rest, k, d => if k' = k then v else get_user_preference rest k d

/-- Python truthiness of a preference value (`if enhanced_documentation:`-style
tests on preferences): nonempty string or `True`. -/
def pvTruthy : PVal → Bool
  | .s v => v ≠ []
  | .b v => v

/-- Python `pref == "lit"` comparison: only a string preference can equal a
string literal. -/
def pvEqStr (x : PVal) (t : Str) : Bool :=
  match x with
  | .s v => v = t
  | .b _ => false

/-- Scanner for the regex `PROGRAM-ID\s*\.\s*([\w-]+)` (with `re.IGNORECASE`)
at the head of the text: the literal marker, then optional whitespace, a dot,
optional whitespace, and a maximal nonempty `[\w-]+` run, which is the group.
Greedy `\s*` followed by `.` is deterministic because `.` is not whitespace. -/
def tryPIDHere (s : Str) : Option Str :=
  if isPrefixCI (str "program-id") s then
    let t1 := (s.drop 10).dropWhile isPyWS
    match t1 with
    | '.' :: t2 =>
      let t3 := t2.dropWhile isPyWS
      let tok := t3.takeWhile isWordHy
      if tok = [] then none else some tok
    | _ => none
  else none

/-- `re.search` for the program-id pattern: first position (left to right)
where `tryPIDHere` succeeds. -/
def searchPID : Str → Option Str
  | [] => none
  | s@(_ :: rest) =>
    match tryPIDHere s with
    | some tok => some tok
    | none => searchPID rest

/-- `_extract_program_id`: the matched group, `.strip()`-ed, or `"Unknown"`. -/
def extract_program_id (cobol_code : Str) : Str :=
  match searchPID cobol_code with
  | some tok => stripWS tok
  | none => str "Unknown"

/-- One attempted match of `([\w-]+)\s+DIVISION` (with `re.IGNORECASE`)
anchored at the head of `s`: a maximal nonempty `[\w-]+` run (the group), at
least one whitespace character, then the literal `DIVISION`.  Returns the
group together with the text following the whole match.  The match is
deterministic: the group must be the full word run (a shorter prefix would be
followed by a word character, not whitespace) and `\s+` must be the full
whitespace run (since `DIVISION` starts with a non-whitespace character). -/
def tryDivHere (s : Str) : Option (Str × Str) :=
  let w := s.takeWhile isWordHy
  if w = [] then none
  else
    let t := s.drop w.length
    let ws := t.takeWhile isPyWS
    if ws = [] then none
    else
      let u := t.drop ws.length
      if isPrefixCI (str "division") u then some (w, u.drop 8) else none

/-- `re.finditer` loop of `_identify_divisions`: scan left to right; at each
match emit `match.group(1).strip()` and continue after the end of the match
(non-overlapping), otherwise advance one character.  Fuel-driven; callers
pass `s.length`. -/
def identifyDivisionsAux : Nat → Str → List Str
  | 0, _ => []
  | fuel + 1, s =>
    match s with
    | [] => []
    | _ :: rest =>
      match tryDivHere s with
      | some (w, after) => stripWS w :: identifyDivisionsAux fuel after
      | none => identifyDivisionsAux fuel rest

/-- `_identify_divisions`: all matches of `([\w-]+)\s+DIVISION`, in order. -/
def identify_divisions (cobol_code : Str) : List Str :=
  identifyDivisionsAux cobol_code.length cobol_code

/-- The skeleton built by `analyze_cobol_structure` when no parsed structure
is supplied (`{"program_id": ..., "divisions": ...}`), §4.1's
`HeuristicPreparser.parse`. -/
structure Skeleton where
  program_id : Str
  divisions : List Str
  deriving DecidableEq

def heuristicParse (cobol_code : Str) : Skeleton :=
  { program_id := extract_program_id cobol_code
    divisions := identify_divisions cobol_code }

/-- `structured_data["mcp_explanation"]` payload: a dict whose `explanation`
key is read with `.get("explanation", "")`. -/
structure MCPExpl where
  explanation : Option Str := none
  deriving DecidableEq

/-- One value of the `visual_elements` dict of the enriched analysis. -/
structure VisualElem where
  explanation : Option Str := none
  visual_element : Option Str := none
  deriving DecidableEq

/-- The structured-analysis dictionary flowing through the agent
(`StructuredAnalysis` of §3).  Absent keys are `none`.  The `variables` key
is named `vars` here (`variables` is a reserved word); it and `divisions`
are modelled by their key sequences (the code only measures
their length, tests membership, or serializes them into prompts), and
`construct_explanations` by (construct, optional explanation) pairs. -/
structure StructuredData where
  program_id : Option Str := none
  description : Option Str := none
  divisions : Option (List Str) := none
  vars : Option (List Str) := none
  flow_diagram : Option Str := none
  mcp_explanation : Option MCPExpl := none
  construct_explanations : Option (List (Str × Option Str)) := none
  visual_elements : Option (List (Str × VisualElem)) := none
  deriving DecidableEq

/-- Outcome of `_evaluate_analysis_quality` / `_evaluate_documentation_quality`. -/
structure QualityRes where
  quality_score : Nat
  quality_level : Str
  quality_notes : List Str
  deriving DecidableEq

/-- `"low" if quality_score < 2 else "medium" if quality_score < 4 else "high"`. -/
def qualityLevel (score : Nat) : Str :=
  if score < 2 then str "low" else if score < 4 then str "medium" else str "high"

/-- `_evaluate_analysis_quality(structured_data)`: the five sequential
criterion checks, each adding 1 to the score or one note. -/
def evaluate_analysis_quality (sd : StructuredData) : QualityRes :=
  let b1 := match sd.program_id with
            | some p => decide (p ≠ str "Unknown")
            | none => false
  let b2 := sd.description.isSome && decide (20 < (sd.description.getD []).length)
  let b3 := sd.divisions.isSome && decide (0 < (sd.divisions.getD []).length)
  let b4 := sd.vars.isSome && decide (0 < (sd.vars.getD []).length)
  let b5 := sd.flow_diagram.isSome && decide (50 < (sd.flow_diagram.getD []).length)
  let score := (if b1 then 1 else 0) + (if b2 then 1 else 0) + (if b3 then 1 else 0)
             + (if b4 then 1 else 0) + (if b5 then 1 else 0)
  { quality_score := score
    quality_level := qualityLevel score
    quality_notes :=
      (if b1 then [] else [str "Missing program ID"])
      ++ (if b2 then [] else [str "Description missing or too short"])
      ++ (if b3 then [] else [str "No divisions identified"])
      ++ (if b4 then [] else [str "No variables identified"])
      ++ (if b5 then [] else [str "Flow diagram missing or incomplete"]) }

/-- `_evaluate_documentation_quality(documentation)`: length, `#` count,
fenced-block count, mermaid marker, and word count checks. -/
def evaluate_documentation_quality (documentation : Str) : QualityRes :=
  let b1 := decide (1000 < documentation.length)
  let b2 := decide (3 < countSub (str "#") documentation)
  let b3 := decide (2 ≤ countSub (str "```") documentation)
  let b4 := subB (str "```mermaid") documentation
  let b5 := decide (300 < wordCount documentation)
  let score := (if b1 then 1 else 0) + (if b2 then 1 else 0) + (if b3 then 1 else 0)
             + (if b4 then 1 else 0) + (if b5 then 1 else 0)
  { quality_score := score
    quality_level := qualityLevel score
    quality_notes :=
      (if b1 then [] else [str "Documentation is too short"])
      ++ (if b2 then [] else [str "Too few section headings"])
      ++ (if b3 then [] else [str "No code examples included"])
      ++ (if b4 then [] else [str "No diagrams included"])
      ++ (if b5 then [] else [str "Insufficient explanation text"]) }

/-- The spec's 5-criterion analysis rubric (§4.6), written from the spec's
words: non-default programId, description length > 20, at least one
division, at least one variable, flowDiagram length > 50. -/
def analysisRubric (sd : StructuredData) : List Bool :=
  [ (match sd.program_id with
     | some p => decide (p ≠ str "Unknown")
     | none => false)
  , sd.description.isSome && decide (20 < (sd.description.getD []).length)
  , sd.divisions.isSome && decide (0 < (sd.divisions.getD []).length)
  , sd.vars.isSome && decide (0 < (sd.vars.getD []).length)
  , sd.flow_diagram.isSome && decide (50 < (sd.flow_diagram.getD []).length) ]

/-- The spec's 5-criterion documentation rubric (§4.6): length > 1000,
heading marker count > 3, at least one fenced code block, at least one
mermaid diagram block, word count > 300. -/
def documentationRubric (d : Str) : List Bool :=
  [ decide (1000 < d.length)
  , decide (3 < countSub (str "#") d)
  , decide (2 ≤ countSub (str "```") d)
  , subB (str "```mermaid") d
  , decide (300 < wordCount d) ]

theorem ws_not_wordHy : ∀ c : Char, isPyWS c = true → isWordHy c = false := by
  intro c h
  simp only [isPyWS, Bool.or_eq_true, decide_eq_true_eq] at h
  rcases h with ((((h | h) | h) | h) | h) | h <;> subst h <;> decide

theorem wordHy_not_ws {c : Char} (h : isWordHy c = true) : isPyWS c = false := by
  cases hw : isPyWS c with
  | false => rfl
  | true => rw [ws_not_wordHy c hw] at h; cases h

theorem dropWhile_eq_self_of_not {p : Char → Bool} {l : Str}
    (h : ∀ c ∈ l, p c = false) : l.dropWhile p = l := by
  cases l with
  | nil => rfl
  | cons c rest => simp [List.dropWhile_cons, h c (by simp)]

theorem stripWS_eq_self_of_no_ws {l : Str} (h : ∀ c ∈ l, isPyWS c = false) :
    stripWS l = l := by
  have h1 : dropLeftWS l = l := dropWhile_eq_self_of_not h
  have h2 : l.reverse.dropWhile isPyWS = l.reverse :=
    dropWhile_eq_self_of_not (fun c hc => h c (List.mem_reverse.mp hc))
  simp [stripWS, h1, h2]

theorem tryPIDHere_shape {s tok : Str} (h : tryPIDHere s = some tok) :
    tok ≠ [] ∧ ∀ c ∈ tok, isWordHy c = true := by
  simp only [tryPIDHere] at h
  by_cases hp : isPrefixCI (str "program-id") s = true
  · rw [if_pos hp] at h
    cases ht : (s.drop 10).dropWhile isPyWS with
    | nil => rw [ht] at h; cases h
    | cons c t2 =>
      rw [ht] at h
      by_cases hc : c = '.'
      · subst hc
        simp only at h
        by_cases he : (t2.dropWhile isPyWS).takeWhile isWordHy = ([] : Str)
        · rw [if_pos he] at h; cases h
        · rw [if_neg he] at h
          cases h
          exact ⟨he, fun c hc => List.mem_takeWhile_imp hc⟩
      · cases hcc : c <;> rw [hcc] at h hc <;> simp_all
  · rw [if_neg hp] at h; cases h

theorem searchPID_anchored : ∀ {s tok : Str}, searchPID s = some tok →
    ∃ v, v <:+ s ∧ tryPIDHere v = some tok := by
  intro s
  induction s with
  | nil => intro tok h; cases h
  | cons c rest ih =>
    intro tok h
    simp only [searchPID] at h
    cases ht : tryPIDHere (c :: rest) with
    | some t => rw [ht] at h; cases h; exact ⟨c :: rest, List.suffix_refl _, ht⟩
    | none =>
      rw [ht] at h
      obtain ⟨v, hv, hm⟩ := ih h
      exact ⟨v, hv.trans (List.suffix_cons c rest), hm⟩

theorem tryDivHere_shape {s w r : Str} (h : tryDivHere s = some (w, r)) :
    stripWS w = w ∧ w ≠ [] ∧ ∀ c ∈ w, isWordHy c = true := by
  simp only [tryDivHere] at h
  by_cases hw : s.takeWhile isWordHy = ([] : Str)
  · rw [if_pos hw] at h; cases h
  · rw [if_neg hw] at h
    by_cases hws : (s.drop (s.takeWhile isWordHy).length).takeWhile isPyWS = ([] : Str)
    · rw [if_pos hws] at h; cases h
    · rw [if_neg hws] at h
      by_cases hd : isPrefixCI (str "division")
          ((s.drop (s.takeWhile isWordHy).length).drop
            ((s.drop (s.takeWhile isWordHy).length).takeWhile isPyWS).length) = true
      · rw [if_pos hd] at h
        cases h
        have hall : ∀ c ∈ s.takeWhile isWordHy, isWordHy c = true :=
          fun c hc => List.mem_takeWhile_imp hc
        exact ⟨stripWS_eq_self_of_no_ws (fun c hc => wordHy_not_ws (hall c hc)), hw, hall⟩
      · rw [if_neg hd] at h; cases h

theorem identifyDivisionsAux_shape : ∀ (fuel : Nat) (s : Str),
    ∀ d ∈ identifyDivisionsAux fuel s,
      ∃ v w r, v <:+ s ∧ tryDivHere v = some (w, r) ∧ d = stripWS w := by
  intro fuel
  induction fuel with
  | zero => intro s d hd; cases hd
  | succ n ih =>
    intro s d hd
    cases s with
    | nil => cases hd
    | cons c rest =>
      simp only [identifyDivisionsAux] at hd
      cases ht : tryDivHere (c :: rest) with
      | some wr =>
        obtain ⟨w, after⟩ := wr
        rw [ht] at hd
        cases hd with
        | head => exact ⟨c :: rest, w, after, List.suffix_refl _, ht, rfl⟩
        | tail _ hmem =>
          obtain ⟨v, w', r', hv, hm, hdw⟩ := ih after d hmem
          have hsuf : after <:+ c :: rest := by
            have h1 : tryDivHere (c :: rest) = some (w, after) := ht
            simp only [tryDivHere] at h1
            by_cases hw : (c :: rest).takeWhile isWordHy = ([] : Str)
            · rw [if_pos hw] at h1; cases h1
            · rw [if_neg hw] at h1
              by_cases hws : ((c :: rest).drop ((c :: rest).takeWhile isWordHy).length).takeWhile isPyWS = ([] : Str)
              · rw [if_pos hws] at h1; cases h1
              · rw [if_neg hws] at h1
                by_cases hd8 : isPrefixCI (str "division")
                    (((c :: rest).drop ((c :: rest).takeWhile isWordHy).length).drop
                      (((c :: rest).drop ((c :: rest).takeWhile isWordHy).length).takeWhile isPyWS).length) = true
                · rw [if_pos hd8] at h1
                  cases h1
                  exact (List.drop_suffix _ _).trans ((List.drop_suffix _ _).trans (List.drop_suffix _ _))
                · rw [if_neg hd8] at h1; cases h1
          exact ⟨v, w', r', hv.trans hsuf, hm, hdw⟩
      | none =>
        rw [ht] at hd
        obtain ⟨v, w', r', hv, hm, hdw⟩ := ih rest d hd
        exact ⟨v, w', r', hv.trans (List.suffix_cons c rest), hm, hdw⟩

theorem score_count_five (b1 b2 b3 b4 b5 : Bool) :
    ((if b1 then 1 else 0) + (if b2 then 1 else 0) + (if b3 then 1 else 0)
      + (if b4 then 1 else 0) + (if b5 then 1 else 0))
      = ([b1, b2, b3, b4, b5].count true) := by
  cases b1 <;> cases b2 <;> cases b3 <;> cases b4 <;> cases b5 <;> rfl

theorem notes_count_five (b1 b2 b3 b4 b5 : Bool) (n1 n2 n3 n4 n5 : Str) :
    ((if b1 then ([] : List Str) else [n1]) ++ (if b2 then [] else [n2])
      ++ (if b3 then [] else [n3]) ++ (if b4 then [] else [n4])
      ++ (if b5 then [] else [n5])).length
      + ([b1, b2, b3, b4, b5].count true) = 5 := by
  cases b1 <;> cases b2 <;> cases b3 <;> cases b4 <;> cases b5 <;> rfl

/-- C5: `_evaluate_analysis_quality` and `_evaluate_documentation_quality`
each compute `quality_score` as exactly the number of satisfied criteria of
the fixed 5-criterion rubric (analysis: non-default `program_id`,
description length > 20, at least one division, at least one variable,
`flow_diagram` length > 50; documentation: length > 1000, `#` count > 3, at
least one fenced code block, at least one mermaid block, word count > 300),
`quality_level` is `"low"` for score < 2, `"medium"` for score < 4 and
`"high"` otherwise, and exactly one note is contributed per unsatisfied
criterion (so notes length + score = 5).  The all-5 / at-most-1 special
cases of the claim are instances of the level equation. -/
theorem quality_evaluators_follow_rubric :
    ∀ (sd : StructuredData) (d : Str),
      (evaluate_analysis_quality sd).quality_score = (analysisRubric sd).count true
      ∧ (evaluate_analysis_quality sd).quality_level
          = (if (analysisRubric sd).count true < 2 then str "low"
             else if (analysisRubric sd).count true < 4 then str "medium" else str "high")
      ∧ (evaluate_analysis_quality sd).quality_notes.length
          + (analysisRubric sd).count true = 5
      ∧ (evaluate_documentation_quality d).quality_score = (documentationRubric d).count true
      ∧ (evaluate_documentation_quality d).quality_level
          = (if (documentationRubric d).count true < 2 then str "low"
             else if (documentationRubric d).count true < 4 then str "medium" else str "high")
      ∧ (evaluate_documentation_quality d).quality_notes.length
          + (documentationRubric d).count true = 5 := by
  intro sd d
  have hsA : (evaluate_analysis_quality sd).quality_score = (analysisRubric sd).count true :=
    score_count_five _ _ _ _ _
  have hsD : (evaluate_documentation_quality d).quality_score = (documentationRubric d).count true :=
    score_count_five _ _ _ _ _
  refine ⟨hsA, ?_, notes_count_five _ _ _ _ _ _ _ _ _ _, hsD, ?_, notes_count_five _ _ _ _ _ _ _ _ _ _⟩
  · have : (evaluate_analysis_quality sd).quality_level
        = qualityLevel ((evaluate_analysis_quality sd).quality_score) := rfl
    rw [this, hsA]; rfl
  · have : (evaluate_documentation_quality d).quality_level
        = qualityLevel ((evaluate_documentation_quality d).quality_score) := rfl
    rw [this, hsD]; rfl

/-- C7: on every source text (including the empty string) the heuristic
pre-parse (`_extract_program_id` together with `_identify_divisions`, both
total functions of this embedding, so they terminate without error) yields a
program identifier that is either the literal `"Unknown"` or the (nonempty,
`[\w-]`-only) group of a `PROGRAM-ID` match anchored at some position of the
text, and a possibly empty division list each of whose entries is the group
of a `<NAME> DIVISION` match anchored at some position of the text. -/
theorem heuristic_preparse_shape :
    ∀ s : Str,
      ((heuristicParse s).program_id = str "Unknown"
        ∨ ∃ v tok, v <:+ s ∧ tryPIDHere v = some tok
            ∧ (heuristicParse s).program_id = tok
            ∧ tok ≠ [] ∧ ∀ c ∈ tok, isWordHy c = true)
      ∧ (∀ d ∈ (heuristicParse s).divisions,
          (∃ v w r, v <:+ s ∧ tryDivHere v = some (w, r) ∧ d = w)
          ∧ d ≠ [] ∧ ∀ c ∈ d, isWordHy c = true) := by
  intro s
  constructor
  · show (extract_program_id s = str "Unknown" ∨ _)
    cases hs : searchPID s with
    | none => left; simp [extract_program_id, hs]
    | some tok =>
      right
      obtain ⟨v, hv, hm⟩ := searchPID_anchored hs
      obtain ⟨hne, hall⟩ := tryPIDHere_shape hm
      have hstrip : stripWS tok = tok :=
        stripWS_eq_self_of_no_ws (fun c hc => wordHy_not_ws (hall c hc))
      refine ⟨v, tok, hv, hm, ?_, hne, hall⟩
      simp [heuristicParse, extract_program_id, hs, hstrip]
  · intro d hd
    obtain ⟨v, w, r, hv, hm, hdw⟩ :=
      identifyDivisionsAux_shape s.length s d hd
    obtain ⟨hstrip, hne, hall⟩ := tryDivHere_shape hm
    rw [hstrip] at hdw
    refine ⟨⟨v, w, r, hv, hm, hdw⟩, ?_, ?_⟩
    · rw [hdw]; exact hne
    · rw [hdw]; exact hall

/-- Witness for C7 at the spec's own scenario input
`PROGRAM-ID. PAYROLL.` with a `PROCEDURE DIVISION` marker. -/
theorem heuristic_preparse_shape_witness :
    str "PROCEDURE" ≠ [] ∧ (heuristicParse (str "PROGRAM-ID. PAYROLL. PROCEDURE DIVISION")).program_id = str "PAYROLL" := by
  constructor
  · exact ((heuristic_preparse_shape (str "PROGRAM-ID. PAYROLL. PROCEDURE DIVISION")).2
      (str "PROCEDURE") (by decide)).2.1
  · decide

/-- C8 counterexample: on `"DATA DIVISION DATA DIVISION"` the code returns
`["DATA", "DATA"]` — the two matches are identical and adjacent, yet the
duplicate is NOT removed, contradicting the claim that identical adjacent
duplicates are removed (which would give `["DATA"]`). -/
theorem identify_divisions_keeps_adjacent_duplicates :
    identify_divisions (str "DATA DIVISION DATA DIVISION") = [str "DATA", str "DATA"]
    ∧ identify_divisions (str "DATA DIVISION DATA DIVISION") ≠ [str "DATA"] := by
  constructor <;> decide

/-- Declarative statement of the `re.finditer` semantics for the division
pattern: `FinditerDiv s l` holds when `l` enumerates, in text order, exactly
the leftmost non-overlapping matches of `([\w-]+)\s+DIVISION` over `s`,
each contributing its stripped group — with nothing skipped (every position
strictly before a match start, and every position of a matchless text,
fails the anchored match test) and nothing removed (one entry per match).
Unlike the character-stepping scanner it is phrased by splitting off a
matchless gap all at once. -/
inductive FinditerDiv : Str → List Str → Prop
  | none_found (s : Str) :
      (∀ i, tryDivHere (s.drop i) = none) → FinditerDiv s []
  | cons (s pre rest w after : Str) (l : List Str) :
      s = pre ++ rest →
      (∀ i, i < pre.length → tryDivHere (s.drop i) = none) →
      tryDivHere rest = some (w, after) →
      FinditerDiv after l →
      FinditerDiv s (stripWS w :: l)

theorem tryDivHere_after_lt {s w after : Str} (h : tryDivHere s = some (w, after)) :
    after.length < s.length := by
  simp only [tryDivHere] at h
  by_cases hw : s.takeWhile isWordHy = ([] : Str)
  · rw [if_pos hw] at h; cases h
  · rw [if_neg hw] at h
    by_cases hws : (s.drop (s.takeWhile isWordHy).length).takeWhile isPyWS = ([] : Str)
    · rw [if_pos hws] at h; cases h
    · rw [if_neg hws] at h
      by_cases hd : isPrefixCI (str "division")
          ((s.drop (s.takeWhile isWordHy).length).drop
            ((s.drop (s.takeWhile isWordHy).length).takeWhile isPyWS).length) = true
      · rw [if_pos hd] at h
        cases h
        have ha : 1 ≤ (s.takeWhile isWordHy).length := by
          cases htw : s.takeWhile isWordHy with
          | nil => exact absurd htw hw
          | cons x xs => simp [htw]
        have hs1 : 1 ≤ s.length := by
          cases s with
          | nil => simp at hw
          | cons c cs => simp
        simp only [List.length_drop]
        omega
      · rw [if_neg hd] at h; cases h

theorem finditerDiv_cons_none {c : Char} {s : Str} {l : List Str}
    (hc : tryDivHere (c :: s) = none) (h : FinditerDiv s l) :
    FinditerDiv (c :: s) l := by
  cases h with
  | none_found _ hall =>
    apply FinditerDiv.none_found
    intro i
    cases i with
    | zero => simpa using hc
    | succ j => simpa using hall j
  | cons _ pre rest w after l2 hseq hgap hm htail =>
    apply FinditerDiv.cons (c :: s) (c :: pre) rest w after l2
    · rw [hseq]; rfl
    · intro i hi
      cases i with
      | zero => simpa using hc
      | succ j =>
        have hj : j < pre.length := by simpa using hi
        simpa using hgap j hj
    · exact hm
    · exact htail

theorem identifyDivisionsAux_finditer : ∀ (fuel : Nat) (s : Str), s.length ≤ fuel →
    FinditerDiv s (identifyDivisionsAux fuel s) := by
  intro fuel
  induction fuel with
  | zero =>
    intro s hs
    have hnil : s = [] := List.eq_nil_of_length_eq_zero (Nat.le_zero.mp hs)
    subst hnil
    exact FinditerDiv.none_found [] (fun i => by rw [List.drop_nil]; decide)
  | succ n ih =>
    intro s hs
    cases s with
    | nil => exact FinditerDiv.none_found [] (fun i => by rw [List.drop_nil]; decide)
    | cons c rest =>
      simp only [identifyDivisionsAux]
      cases ht : tryDivHere (c :: rest) with
      | some wr =>
        obtain ⟨w, after⟩ := wr
        have hlt : after.length < (c :: rest).length := tryDivHere_after_lt ht
        have hafter : after.length ≤ n := by
          simp only [List.length_cons] at hlt hs
          omega
        exact FinditerDiv.cons (c :: rest) [] (c :: rest) w after _ rfl
          (fun i hi => absurd hi (Nat.not_lt_zero i)) ht (ih after hafter)
      | none =>
        have hrest : rest.length ≤ n := by
          simp only [List.length_cons] at hs
          omega
        exact finditerDiv_cons_none ht (ih rest hrest)

/-- C8 amended: for EVERY source text, `_identify_divisions` returns exactly
the stripped groups of the leftmost non-overlapping matches of the
case-insensitive `([\w-]+)\s+DIVISION` pattern, in first-occurrence order,
with NO duplicate removal of any kind (the `FinditerDiv` enumeration has one
entry per match, so identical adjacent duplicates are retained — as the
concrete three-match run also shows). -/
theorem identify_divisions_order_no_dedup :
    (∀ s : Str, FinditerDiv s (identify_divisions s))
    ∧ identify_divisions (str "DATA DIVISION DATA DIVISION PROCEDURE DIVISION")
      = [str "DATA", str "DATA", str "PROCEDURE"] := by
  constructor
  · intro s
    exact identifyDivisionsAux_finditer s.length s (Nat.le_refl _)
  · decide

/-- C10: after `set_user_preference(k, v)`, `get_user_preference(k, d)`
returns `v` for every default; other keys are unaffected (frame property);
and a key never set returns the supplied default.  Unknown keys are accepted
without error (`set_user_preference` is total). -/
theorem user_preference_get_set_frame :
    ∀ (p : Prefs) (k k' : Str) (v d d' : PVal),
      get_user_preference (set_user_preference p k v) k d' = v
      ∧ (k' ≠ k → get_user_preference (set_user_preference p k v) k' d
                    = get_user_preference p k' d)
      ∧ ((∀ w, (k, w) ∉ p) → get_user_preference p k d = d) := by
  intro p k k' v d d'
  refine ⟨by simp [set_user_preference, get_user_preference], ?_, ?_⟩
  · intro hne
    have hkk : k ≠ k' := fun h => hne h.symm
    simp [set_user_preference, get_user_preference, hkk]
  · intro hnotin
    induction p with
    | nil => rfl
    | cons kv rest ih =>
      obtain ⟨k0, v0⟩ := kv
      have hk0 : k0 ≠ k := by
        intro h; subst h
        exact hnotin v0 (List.mem_cons_self _ _)
      simp only [get_user_preference, if_neg hk0]
      exact ih (fun w hw => hnotin w (List.mem_cons_of_mem _ hw))

/-- Witness for C10 at concrete keys and values. -/
theorem user_preference_get_set_frame_witness :
    get_user_preference
        (set_user_preference [] (str "llm_provider") (.s (str "groq")))
        (str "audience") (.s (str "technical"))
      = .s (str "technical") := by
  have h := user_preference_get_set_frame [] (str "llm_provider") (str "audience")
    (.s (str "groq")) (.s (str "technical")) (.s (str "technical"))
  rw [h.2.1 (by decide)]
  rfl

def mermaidMarker : Str := str "```mermaid"

def tickFence : Str := str "```"

/-- The fixed placeholder diagram substituted for empty blocks
(`Empty[Empty Diagram] --> Placeholder[Placeholder]`). -/
def placeholderDiag : Str :=
  str "flowchart TD\n    Empty[Empty Diagram] --> Placeholder[Placeholder]"

/-- A replaced block as re-emitted by both replacement callbacks:
`f"```mermaid\n{code}\n```"`. -/
def wrapBlock (code : Str) : Str :=
  str "```mermaid\n" ++ code ++ str "\n```"

def placeholderBlock : Str := wrapBlock placeholderDiag

/-- Split a text into lines at `\n` (Python `splitlines`-style, used by the
spec-modelled diagram checker). -/
def splitLinesAux : Str → Str → List Str
  | acc, [] => [acc.reverse]
  | acc, c :: r =>
    if c = '\n' then acc.reverse :: splitLinesAux [] r else splitLinesAux (c :: acc) r

def splitLines (s : Str) : List Str := splitLinesAux [] s

/-- Drop characters up to and including the first occurrence of `stop`. -/
def dropTo (stop : Char) : Str → Option Str
  | [] => none
  | c :: r => if c = stop then some r else dropTo stop r

/-- Node decoration of a flowchart node: `[...]`, `(...)`, `{...}` or
`([...])`; bracket text may be arbitrary (the code's own GOOD EXAMPLE uses
unquoted spaces inside brackets), matching delimiters must close (rule e). -/
def parseDecor (t : Str) : Option Str :=
  match t with
  | '(' :: '[' :: r =>
    (match dropTo ']' r with
     | some (')' :: r2) => some r2
     | _ => none)
  | '(' :: r => dropTo ')' r
  | '[' :: r => dropTo ']' r
  | c :: r => if c = Char.ofNat 123 then dropTo (Char.ofNat 125) r else none
  | [] => none

def parseDecorOpt (t : Str) : Option Str :=
  match t with
  | c :: _ =>
    if c = '[' || c = '(' || c = Char.ofNat 123 then parseDecor t else some t
  | [] => some []

/-- Connector token: an unbroken arrow glyph sequence (rule c). -/
def arrowTok (t : Str) : Option Str :=
  if (str "--->").isPrefixOf t then some (t.drop 4)
  else if (str "-->").isPrefixOf t then some (t.drop 3)
  else if (str "==>").isPrefixOf t then some (t.drop 3)
  else none

/-- Optional `|label|` after a connector; label text containing whitespace
must be quoted (rule d). -/
def labelOpt (t : Str) : Option Str :=
  match t with
  | '|' :: r =>
    let lbl := r.takeWhile (fun c => c ≠ '|')
    (match r.drop lbl.length with
     | '|' :: r2 =>
       if lbl.any isPyWS then
         (match lbl with
          | '"' :: _ => if lbl.getLast? = some '"' then some r2 else none
          | _ => none)
       else some r2
     | _ => none)
  | _ => some t

def isBlankCh (c : Char) : Bool := c = ' ' || c = '\t'

/-- One `node (arrow node)*` chain: identifiers are alphanumeric/underscore
only (rule b). -/
def chainOk : Nat → Str → Bool
  | 0, _ => false
  | fuel + 1, t =>
    let idTok := t.takeWhile isWordChar
    if idTok = [] then false
    else
      match parseDecorOpt (t.drop idTok.length) with
      | none => false
      | some rest =>
        let rest2 := rest.dropWhile isBlankCh
        if rest2 = [] then true
        else
          match arrowTok rest2 with
          | none => false
          | some r2 =>
            match labelOpt r2 with
            | none => false
            | some r3 => chainOk fuel (r3.dropWhile isBlankCh)

def dirOk (d : Str) : Bool :=
  d = str "TD" || d = str "TB" || d = str "LR" || d = str "RL" || d = str "BT"

/-- First non-blank line declares the diagram kind and direction (rule a). -/
def headerOk (t : Str) : Bool :=
  ((str "flowchart ").isPrefixOf t && dirOk (stripWS (t.drop 10)))
  || ((str "graph ").isPrefixOf t && dirOk (stripWS (t.drop 6)))

def lineOk (l : Str) : Bool :=
  let t := stripWS l
  t = [] || chainOk (t.length + 1) t

/-- Modelled from the spec: the five syntax rules of §4.4 that the missing
`utils.mermaid_validator.validate_mermaid_syntax` checks — (a) the first
non-blank line declares a diagram kind/direction, (b) node identifiers are
alphanumeric/underscore, (c) connectors are unbroken arrow glyphs, (d)
connector label text containing whitespace is quoted (bracketed node text
is exempt, as in the code's own GOOD EXAMPLE `Process[Process Data]`),
(e) delimiters balance. -/
def validDiagram (b : Str) : Bool :=
  match (splitLines b).dropWhile (fun l => decide (stripWS l = [])) with
  | [] => false
  | hd :: rest => headerOk (stripWS hd) && rest.all lineOk

/-- Modelled from the spec: the missing
`utils.mermaid_validator.validate_mermaid_syntax(code)` returns
`(is_valid, corrected_code, message)`; a valid diagram is returned unchanged
(`validateAndRepair` is idempotent per §8) and an invalid one is replaced by
the fixed two-node placeholder (§4.4: when automatic correction cannot be
derived it substitutes the `Empty → Placeholder` diagram). -/
def validateOne (code : Str) : Bool × Str × Str :=
  if validDiagram code then (true, code, str "Diagram syntax is valid")
  else (false, placeholderDiag, str "Diagram replaced by placeholder")

/-- The corrected code component actually used by the agent. -/
def vmsCorrected (code : Str) : Str := (validateOne code).2.1

/-- The replacement performed by both `validate_diagram` (lines 553-576) and
`check_and_fix_diagram` (lines 690-707) on one stripped block body: empty
blocks become the placeholder, other blocks become the validator's corrected
code. -/
def replaceBody (b : Str) : Str :=
  if b = [] then placeholderDiag else vmsCorrected b

/-- `re.sub(r'```mermaid\s*([\s\S]*?)\s*```', repl, doc)`: find the next
`^```mermaid` marker, close it at the first following ` ``` ` (the lazy
group with backtracking makes that the match end), strip the inner text,
re-emit `wrapBlock (g (inner))`, and continue after the closing fence.  If
the opening marker has no closing fence there is no later match either
(any later opener would itself contain a fence) and the text is returned
unchanged.  Fuel-driven; callers pass the text length. -/
def rewriteBlocksAux (g : Str → Str) : Nat → Str → Str
  | 0, s => s
  | fuel + 1, s =>
    match splitFirst mermaidMarker s with
    | none => s
    | some (pre, rest) =>
      match splitFirst tickFence rest with
      | none => s
      | some (mid, after) =>
        pre ++ wrapBlock (g (stripWS mid)) ++ rewriteBlocksAux g fuel after

def rewriteBlocks (g : Str → Str) (doc : Str) : Str :=
  rewriteBlocksAux g doc.length doc

/-- The sequence of (stripped) fenced mermaid block bodies the `re.sub`
scan of `_enhance_with_diagrams` visits, in order. -/
def blocksAux : Nat → Str → List Str
  | 0, _ => []
  | fuel + 1, s =>
    match splitFirst mermaidMarker s with
    | none => []
    | some (_, rest) =>
      match splitFirst tickFence rest with
      | none => []
      | some (mid, after) => stripWS mid :: blocksAux fuel after

def blocksOf (doc : Str) : List Str := blocksAux doc.length doc

/-- The first `re.sub` pass of `_enhance_with_diagrams` (lines 550-580):
replace every block via `validate_diagram`.  (When no marker occurs the
`re.sub` is not run, but the rewrite is the identity then, so the gate at
line 550 is behaviourally irrelevant.) -/
def validatePass (doc : Str) : Str := rewriteBlocks replaceBody doc

/-- `has_valid_diagrams` after the first pass: set for every non-empty block
the scan visits (empty blocks return before setting the flag). -/
def hasValidDiagrams (doc : Str) : Bool :=
  (blocksOf doc).any (fun b => decide (b ≠ []))

theorem rewrite_placeholder_of_empty_block (g : Str → Str) (hg : g [] = placeholderDiag) :
    ∀ (fuel : Nat) (s : Str), [] ∈ blocksAux fuel s →
      subB placeholderBlock (rewriteBlocksAux g fuel s) = true := by
  intro fuel
  induction fuel with
  | zero => intro s h; cases h
  | succ n ih =>
    intro s h
    simp only [blocksAux] at h
    cases h1 : splitFirst mermaidMarker s with
    | none => simp only [h1] at h; cases h
    | some pr =>
      obtain ⟨pre, rest⟩ := pr
      simp only [h1] at h
      cases h2 : splitFirst tickFence rest with
      | none => simp only [h2] at h; cases h
      | some ma =>
        obtain ⟨mid, after⟩ := ma
        simp only [h2] at h
        simp only [rewriteBlocksAux, h1, h2]
        rcases List.mem_cons.mp h with heq | hmem
        · rw [← heq, hg]
          exact subB_exists_of_eq
        · exact subB_append_right _ (ih after hmem)

/-- C6: on every documentation text whose block scan contains an empty
fenced mermaid block, the validation pass of `_enhance_with_diagrams`
replaces it by the fixed `Empty → Placeholder` two-node block, so the result
contains that placeholder block verbatim, still contains a fenced mermaid
block, and the placeholder diagram is valid for the five-rule checker. -/
theorem empty_block_replaced_by_placeholder :
    ∀ doc : Str, [] ∈ blocksOf doc →
      subB placeholderBlock (validatePass doc) = true
      ∧ subB mermaidMarker (validatePass doc) = true
      ∧ validDiagram placeholderDiag = true := by
  intro doc h
  have hrepl : replaceBody [] = placeholderDiag := rfl
  have hp : subB placeholderBlock (validatePass doc) = true :=
    rewrite_placeholder_of_empty_block replaceBody hrepl doc.length doc h
  refine ⟨hp, ?_, by decide⟩
  exact subB_trans (by decide) hp

/-- Witness for C6 at the spec's own scenario input: a lone empty fenced
block. -/
theorem empty_block_replaced_by_placeholder_witness :
    subB placeholderBlock (validatePass (str "```mermaid\n\n```")) = true :=
  (empty_block_replaced_by_placeholder (str "```mermaid\n\n```") (by decide)).1

/-- `has_issues` as set by one run of `check_and_fix_diagram` over all
blocks of the enhanced documentation (lines 687-712): an empty block or a
block changed by the validator flags another attempt. -/
def fixIssues (e : Str) : Bool :=
  (blocksOf e).any (fun b => decide (b = []) || decide (vmsCorrected b ≠ b))

/-- The bounded correction loop (lines 683-712, `max_attempts = 2`): one
rewrite pass always runs; a second runs only when the first flagged issues,
after which `attempts` reaches the bound and the loop exits. -/
def fixLoop (e0 : Str) : Str :=
  if fixIssues e0 then validatePass (validatePass e0) else validatePass e0

/-- Acceptance step of the enhancement pass (lines 714-723): count the
`mermaid` fences of the corrected enhanced text and accept it whenever that
count is positive, otherwise keep the pre-enhancement documentation. -/
def enhanceAccept (documentation e0 : Str) : Str :=
  if 0 < countSub mermaidMarker (fixLoop e0) then fixLoop e0 else documentation

/-- C3 counterexample: the acceptance condition at line 719 is
`enhanced_count > 0`, not `enhanced_count >= original_count`; a
pre-enhancement text with two diagram blocks is replaced by an accepted
enhancement with a single block, so the diagram-block count regresses from
2 to 1. -/
theorem enhancement_can_regress_diagram_count :
    enhanceAccept
        (str "```mermaid\nflowchart TD\n    A --> B\n```\n\n```mermaid\nflowchart TD\n    C --> D\n```")
        (str "x\n```mermaid\nflowchart TD\n    A --> B\n```")
      = str "x\n```mermaid\nflowchart TD\n    A --> B\n```"
    ∧ countSub mermaidMarker
        (str "```mermaid\nflowchart TD\n    A --> B\n```\n\n```mermaid\nflowchart TD\n    C --> D\n```") = 2
    ∧ countSub mermaidMarker (str "x\n```mermaid\nflowchart TD\n    A --> B\n```") = 1 := by
  refine ⟨by decide, by decide, by decide⟩

/-- C3 amended: the LLM-enhanced documentation is accepted only if, after at
most 2 correction attempts, it contains at least ONE fenced mermaid diagram
block (not: at least as many as before); otherwise the pre-enhancement text
is kept.  Consequently the pass never drops to zero blocks when the input
had any, but the block count can regress when the original had more than
one. -/
theorem enhancement_accept_iff_any_diagram :
    ∀ documentation e0 : Str,
      (enhanceAccept documentation e0 = documentation
        ∨ (enhanceAccept documentation e0 = fixLoop e0
            ∧ 1 ≤ countSub mermaidMarker (fixLoop e0)))
      ∧ (1 ≤ countSub mermaidMarker documentation →
          1 ≤ countSub mermaidMarker (enhanceAccept documentation e0)) := by
  intro documentation e0
  by_cases hc : 0 < countSub mermaidMarker (fixLoop e0)
  · refine ⟨Or.inr ⟨?_, hc⟩, fun _ => ?_⟩
    · simp [enhanceAccept, hc]
    · simp only [enhanceAccept, if_pos hc]
      exact hc
  · refine ⟨Or.inl ?_, fun h => ?_⟩
    · simp [enhanceAccept, hc]
    · simpa [enhanceAccept, hc] using h

/-- Witness for C3 amended: a one-block documentation and an empty
enhancement (the corrected enhancement has no blocks, so it is rejected and
the block floor is kept). -/
theorem enhancement_accept_iff_any_diagram_witness :
    1 ≤ countSub mermaidMarker
        (enhanceAccept (str "```mermaid\nflowchart TD\n    A --> B\n```") []) :=
  (enhancement_accept_iff_any_diagram
    (str "```mermaid\nflowchart TD\n    A --> B\n```") []).2 (by decide)

/-- Payload extraction from an LLM response (lines 190-198): the regex
`'```(?:json)?\s*([\s\S]*?)\s*```'` takes the stripped inner text of the
first fenced block (the optional `json` tag is consumed greedily; if the
first fence has no closing fence, no later fence pair can match either,
since every later opener is itself a fence inside the remainder), else the
whole stripped response. -/
def extractJsonPayload (result : Str) : Str :=
  match splitFirst tickFence result with
  | none => stripWS result
  | some (_, rest) =>
    let rest2 := if (str "json").isPrefixOf rest then rest.drop 4 else rest
    match splitFirst tickFence rest2 with
    | some (mid, _) => stripWS mid
    | none => stripWS result

/-- External outcomes reaching one `analyze_cobol_structure` call: whether
the preferred provider is registered in `llm_selector`, whether a
`GROQ_API_KEY` is present, the outcome of `llm_selector.generate_text`
(`.error` = the call raised), the outcome of `analyze_cobol_with_groq`
given the model preference, and `json.loads` on the extracted payload
(`none` = any parse exception). -/
structure AEnv where
  provider_in_selector : Bool
  groq_key : Bool
  selector_result : Except Str Str
  groq_analyze : PVal → Except Str StructuredData
  jsonParse : Str → Option StructuredData

/-- The fixed two-node error diagram of the no-API-key analysis (line 183). -/
def errFlowDiagram : Str :=
  str "flowchart TD\n    Error[Error: No API Keys] --> Action[Please configure API keys]"

/-- The degraded analysis returned when no API key is available
(lines 178-184). -/
def noKeyAnalysis (cobol_code : Str) : StructuredData :=
  { program_id := some (extract_program_id cobol_code)
    description := some (str "Error: No API keys available for any LLM provider")
    divisions := some (identify_divisions cobol_code)
    vars := some []
    flow_diagram := some errFlowDiagram }

/-- The skeleton-derived fallback on payload parse failure (lines 209-213):
only `program_id`, `description` and `divisions` keys are present. -/
def parseFailAnalysis (cobol_code : Str) : StructuredData :=
  { program_id := some (extract_program_id cobol_code)
    description := some (str "Could not automatically extract program description.")
    divisions := some (identify_divisions cobol_code) }

/-- `analyze_cobol_structure(cobol_code, parsed_structure)` (lines 76-235).
The skeleton default, provider routing, payload parse with fallback, and the
outer `except ... raise` (modelled as `.error` pass-through) are embedded;
`remember`, `log_decision` and the quality evaluation do not alter the
returned value and the observability collaborator never fails the pipeline
(§4.7), so they are not represented in the result. -/
def analyze_cobol_structure (env : AEnv) (prefs : Prefs) (cobol_code : Str)
    (parsed_structure : Option Skeleton) : Except Str StructuredData :=
  let _skel := match parsed_structure with
               | some sk => sk
               | none => heuristicParse cobol_code
  let current_provider := get_user_preference prefs (str "llm_provider") (.s (str "groq"))
  let current_model := get_user_preference prefs (str "llm_model") (.s (str "llama-3.3-70b-versatile"))
  if env.provider_in_selector then
    match env.selector_result with
    | .error e => .error e
    | .ok result =>
      match env.jsonParse (extractJsonPayload result) with
      | some structured_data => .ok structured_data
      | none => .ok (parseFailAnalysis cobol_code)
  else if pvEqStr current_provider (str "groq") && env.groq_key then
    match env.groq_analyze current_model with
    | .error e => .error e
    | .ok structured_data => .ok structured_data
  else if env.groq_key then
    match env.groq_analyze (.s (str "llama-3.3-70b-versatile")) with
    | .error e => .error e
    | .ok structured_data => .ok structured_data
  else
    .ok (noKeyAnalysis cobol_code)

/-- C2 counterexample: with the preferred provider registered in the
selector and `llm_selector.generate_text` raising, the exception is caught
at line 232 and re-raised at line 235 — `analyze_cobol_structure` DOES
propagate the provider exception to its caller instead of resolving to a
StructuredAnalysis. -/
theorem analyze_propagates_provider_exception :
    analyze_cobol_structure
        ⟨true, false, .error (str "provider boom"), fun _ => .error [], fun _ => none⟩
        [] (str "IDENTIFICATION DIVISION.") none
      = .error (str "provider boom") := by
  rfl

/-- C2 amended: `ProviderError`/`PayloadParseError` recovery is partial: on
the no-API-key path the call returns the fixed degraded analysis (fixed
error description, two-node flow diagram that validates), and on payload
parse failure it returns the skeleton-derived fallback, but an exception
raised by the provider invocation itself is re-raised by the
`except ... raise` at lines 232-235 and propagates to the caller. -/
theorem analyze_failure_paths :
    ∀ (env : AEnv) (prefs : Prefs) (cobol_code : Str) (ps : Option Skeleton),
      (env.provider_in_selector = false → env.groq_key = false →
        analyze_cobol_structure env prefs cobol_code ps = .ok (noKeyAnalysis cobol_code)
        ∧ (noKeyAnalysis cobol_code).description
            = some (str "Error: No API keys available for any LLM provider")
        ∧ (noKeyAnalysis cobol_code).flow_diagram = some errFlowDiagram
        ∧ validDiagram errFlowDiagram = true)
      ∧ (∀ r, env.provider_in_selector = true → env.selector_result = .ok r →
          env.jsonParse (extractJsonPayload r) = none →
          analyze_cobol_structure env prefs cobol_code ps = .ok (parseFailAnalysis cobol_code))
      ∧ (∀ e, env.provider_in_selector = true → env.selector_result = .error e →
          analyze_cobol_structure env prefs cobol_code ps = .error e) := by
  intro env prefs cobol_code ps
  refine ⟨fun hsel hkey => ?_, fun r hsel hres hjson => ?_, fun e hsel hres => ?_⟩
  · refine ⟨?_, rfl, rfl, by decide⟩
    simp [analyze_cobol_structure, hsel, hkey]
  · simp [analyze_cobol_structure, hsel, hres, hjson]
  · simp [analyze_cobol_structure, hsel, hres]

/-- Witness for C2 amended on a concrete no-provider, no-key environment. -/
theorem analyze_failure_paths_witness :
    analyze_cobol_structure
        ⟨false, false, .error [], fun _ => .error [], fun _ => none⟩
        [] (str "PROGRAM-ID. PAYROLL.") none
      = .ok (noKeyAnalysis (str "PROGRAM-ID. PAYROLL.")) :=
  ((analyze_failure_paths
      ⟨false, false, .error [], fun _ => .error [], fun _ => none⟩
      [] (str "PROGRAM-ID. PAYROLL.") none).1 rfl rfl).1

/-- C4 counterexample: the selector returns the (unfenced, valid JSON) text
`{"program_id": ""}`; the payload extraction finds no fenced block and
strips the whole response, and `json.loads` — modelled here in agreement
with its real value on the one payload this trace evaluates — parses it to
a dict whose `program_id` is the empty string.  On this successful-parse
path the dict is returned unchanged (line 230), so the returned
StructuredAnalysis has a present but EMPTY `program_id`: the non-empty
guarantee does not hold on that path. -/
theorem analysis_program_id_can_be_empty :
    analyze_cobol_structure
        ⟨true, false, .ok (str "\x7b\"program_id\": \"\"\x7d"), fun _ => .error [],
          fun payload =>
            if payload = str "\x7b\"program_id\": \"\"\x7d"
            then some { program_id := some [] } else none⟩
        [] [] none
      = .ok { program_id := some [] }
    ∧ ({ program_id := some [] } : StructuredData).program_id = some ([] : Str) := by
  exact ⟨rfl, rfl⟩

theorem extract_program_id_ne_nil (s : Str) : extract_program_id s ≠ [] := by
  unfold extract_program_id
  cases hs : searchPID s with
  | none => decide
  | some tok =>
    obtain ⟨v, hv, hm⟩ := searchPID_anchored hs
    obtain ⟨hne, hall⟩ := tryPIDHere_shape hm
    show stripWS tok ≠ []
    rw [stripWS_eq_self_of_no_ws (fun c hc => wordHy_not_ws (hall c hc))]
    exact hne

/-- C4 amended: the heuristic `_extract_program_id` value is always
non-empty (defaulting to the literal `"Unknown"`), and it is what the
degraded paths (no API key; payload parse failure) store in `program_id`;
but on the path where the provider's JSON payload parses successfully the
returned `program_id` is taken from the payload unchecked and may be empty
or absent. -/
theorem analysis_program_id_nonempty_on_fallback_paths :
    ∀ (env : AEnv) (prefs : Prefs) (cobol_code : Str) (ps : Option Skeleton),
      extract_program_id cobol_code ≠ []
      ∧ (noKeyAnalysis cobol_code).program_id = some (extract_program_id cobol_code)
      ∧ (parseFailAnalysis cobol_code).program_id = some (extract_program_id cobol_code)
      ∧ (env.provider_in_selector = false → env.groq_key = false →
          ∃ pid, analyze_cobol_structure env prefs cobol_code ps
              = .ok (noKeyAnalysis cobol_code)
            ∧ (noKeyAnalysis cobol_code).program_id = some pid ∧ pid ≠ [])
      ∧ (∀ r, env.provider_in_selector = true → env.selector_result = .ok r →
          env.jsonParse (extractJsonPayload r) = none →
          ∃ pid, analyze_cobol_structure env prefs cobol_code ps
              = .ok (parseFailAnalysis cobol_code)
            ∧ (parseFailAnalysis cobol_code).program_id = some pid ∧ pid ≠ []) := by
  intro env prefs cobol_code ps
  have hne := extract_program_id_ne_nil cobol_code
  refine ⟨hne, rfl, rfl, fun hsel hkey => ?_, fun r hsel hres hjson => ?_⟩
  · exact ⟨extract_program_id cobol_code,
      ((analyze_failure_paths env prefs cobol_code ps).1 hsel hkey).1, rfl, hne⟩
  · exact ⟨extract_program_id cobol_code,
      (analyze_failure_paths env prefs cobol_code ps).2.1 r hsel hres hjson, rfl, hne⟩

/-- Witness for C4 amended on a concrete no-key environment. -/
theorem analysis_program_id_nonempty_on_fallback_paths_witness :
    extract_program_id (str "no markers here") ≠ [] :=
  (analysis_program_id_nonempty_on_fallback_paths
    ⟨false, false, .error [], fun _ => .error [], fun _ => none⟩
    [] (str "no markers here") none).1

/-- `.*?Documentation(\n|$)` within a line (case-insensitive): some run of
non-newline characters followed by `Documentation` immediately followed by a
newline or the end of the text.  The scanner tries the literal at every
position and otherwise advances over one non-newline character, which is
exactly the set of splits regex backtracking explores. -/
def scanDocLine : Str → Bool
  | [] => false
  | s@(c :: r) =>
    (isPrefixCI (str "documentation") s &&
      (match s.drop 13 with
       | [] => true
       | c2 :: _ => c2 = '\n'))
    || (c ≠ '\n' && scanDocLine r)

/-- The group `(.*?Documentation|Documentation for.*?)(\n|$)` of the
documentation-title pattern: either alternative; the second one
(`Documentation for.*?` with a lazy tail) matches whenever the literal
prefix does, since `.*?(\n|$)` always reaches the end of the line. -/
def altTitle (v : Str) : Bool :=
  scanDocLine v || isPrefixCI (str "documentation for") v

/-- `\s+` then the title group: try the group after each nonempty whitespace
prefix (`\s` may include newlines). -/
def wsAltScan : Str → Bool
  | [] => false
  | v@(c :: r) => altTitle v || (isPyWS c && wsAltScan r)

/-- Head match of `#\s+(.*?Documentation|Documentation for.*?)(\n|$)`
(after the `(^|\n)` anchor). -/
def headTitle : Str → Bool
  | '#' :: c :: r => isPyWS c && wsAltScan r
  | _ => false

/-- Head match of `#\s+` (after the anchor). -/
def headHeading : Str → Bool
  | '#' :: c :: _ => isPyWS c
  | _ => false

/-- Anchored match of `(^|\n)…` starting at index `i` of `doc`: the `^`
alternative applies only at index 0 and the `\n` alternative consumes the
newline at index `i`.  Both give `match.start() = i`. -/
def matchAnchoredAt (hd : Str → Bool) (doc : Str) (i : Nat) : Bool :=
  (decide (i = 0) && hd (doc.drop i))
  || (match doc.drop i with
      | c :: r => c = '\n' && hd r
      | [] => false)

/-- `re.search` leftmost-match position for an anchored pattern. -/
def findMatchPos (hd : Str → Bool) (doc : Str) : Option Nat :=
  (List.range doc.length).find? (fun i => matchAnchoredAt hd doc i)

/-- The split-and-reassemble of `_separate_thinking_process` given the match
start (lines 761-771 and 777-787): both segments are `.strip()`-ed and the
preceding content, when nonempty, moves into a trailing
`# Thinking Process` section. -/
def rebuildThinking (documentation : Str) (pos : Nat) : Str :=
  let thinking_process := stripWS (documentation.take pos)
  let main_documentation := stripWS (documentation.drop pos)
  if thinking_process = [] then main_documentation
  else main_documentation ++ str "\n\n# Thinking Process\n\n" ++ thinking_process

/-- `_separate_thinking_process(documentation)` (lines 745-790): search the
documentation-title pattern first, then the plain first-heading pattern,
splitting at the leftmost match; with no match the text is returned
unchanged. -/
def separate_thinking_process (documentation : Str) : Str :=
  match findMatchPos headTitle documentation with
  | some pos => rebuildThinking documentation pos
  | none =>
    match findMatchPos headHeading documentation with
    | some pos => rebuildThinking documentation pos
    | none => documentation

/-- The combined leftmost split position the function uses (title pattern
first, else plain heading pattern): the spec-side characterization of the
two nested searches. -/
def thinkingSplitPos (documentation : Str) : Option Nat :=
  match findMatchPos headTitle documentation with
  | some pos => some pos
  | none => findMatchPos headHeading documentation

/-- C9 counterexample: a text that begins directly with its documentation
title (no preamble at all) but carries a trailing newline is NOT returned
unchanged — both segments are `.strip()`-ed, so the trailing newline is
dropped, contradicting the claimed no-op. -/
theorem separate_thinking_not_noop_without_preamble :
    separate_thinking_process (str "# My Documentation\nbody\n")
      = str "# My Documentation\nbody"
    ∧ separate_thinking_process (str "# My Documentation\nbody\n")
      ≠ str "# My Documentation\nbody\n" := by
  exact ⟨by decide, by decide⟩

/-- C9 amended: when neither heading pattern matches, the transform is a
true no-op; when one matches at position `pos`, the content before `pos` is
moved, in whitespace-stripped form, into a trailing `# Thinking Process`
section after the stripped remainder (nothing but leading/trailing
whitespace of the two segments is discarded), and with no (non-whitespace)
preamble the result is the whitespace-stripped text rather than the
unchanged text. -/
theorem separate_thinking_characterized :
    ∀ documentation : Str,
      (thinkingSplitPos documentation = none →
        separate_thinking_process documentation = documentation)
      ∧ (∀ pos, thinkingSplitPos documentation = some pos →
          documentation = documentation.take pos ++ documentation.drop pos
          ∧ (stripWS (documentation.take pos) = [] →
              separate_thinking_process documentation = stripWS (documentation.drop pos))
          ∧ (stripWS (documentation.take pos) ≠ [] →
              separate_thinking_process documentation
                = stripWS (documentation.drop pos) ++ str "\n\n# Thinking Process\n\n"
                  ++ stripWS (documentation.take pos))) := by
  intro documentation
  constructor
  · intro hnone
    simp only [thinkingSplitPos] at hnone
    cases h1 : findMatchPos headTitle documentation with
    | some pos => rw [h1] at hnone; cases hnone
    | none =>
      simp only [h1] at hnone
      simp only [separate_thinking_process, h1, hnone]
  · intro pos hpos
    simp only [thinkingSplitPos] at hpos
    have hre : separate_thinking_process documentation = rebuildThinking documentation pos := by
      cases h1 : findMatchPos headTitle documentation with
      | some p => rw [h1] at hpos; cases hpos; simp [separate_thinking_process, h1]
      | none =>
        simp only [h1] at hpos
        simp [separate_thinking_process, h1, hpos]
    refine ⟨(List.take_append_drop pos documentation).symm, fun hthink => ?_, fun hthink => ?_⟩
    · rw [hre]; simp [rebuildThinking, hthink]
    · rw [hre]; simp [rebuildThinking, hthink]

/-- Witness for C9 amended at a text with a real preamble before the title
heading. -/
theorem separate_thinking_characterized_witness :
    separate_thinking_process (str "I think...\n# CO Documentation\nbody")
      = stripWS ((str "I think...\n# CO Documentation\nbody").drop 10)
        ++ str "\n\n# Thinking Process\n\n"
        ++ stripWS ((str "I think...\n# CO Documentation\nbody").take 10) :=
  ((separate_thinking_characterized (str "I think...\n# CO Documentation\nbody")).2
    10 (by decide)).2.2 (by decide)

theorem subB_of_countSubAux_pos {p : Str} : ∀ (fuel : Nat) (s : Str),
    0 < countSubAux p fuel s → subB p s = true := by
  intro fuel
  induction fuel with
  | zero => intro s h; cases h
  | succ n ih =>
    intro s h
    simp only [countSubAux] at h
    by_cases hc : (p ≠ [] && p.isPrefixOf s) = true
    · rw [if_pos hc] at h
      exact subB_of_isPrefixOf (Bool.and_elim_right hc)
    · rw [if_neg hc] at h
      cases s with
      | nil => cases h
      | cons c rest =>
        have := ih rest h
        cases hp : p.isPrefixOf (c :: rest) with
        | true => exact subB_of_isPrefixOf hp
        | false =>
          show (p.isPrefixOf (c :: rest) || subB p rest) = true
          rw [hp, this]
          rfl

theorem subB_of_countSub_pos {p s : Str} (h : 0 < countSub p s) : subB p s = true :=
  subB_of_countSubAux_pos s.length s h

theorem wrapBlock_as_marker (x : Str) :
    wrapBlock x = mermaidMarker ++ (['\n'] ++ x ++ str "\n```") := by
  show str "```mermaid\n" ++ x ++ str "\n```" = _
  have h : str "```mermaid\n" = mermaidMarker ++ ['\n'] := by decide
  rw [h]; simp

theorem subB_marker_of_wrap (pre tail x : Str) :
    subB mermaidMarker (pre ++ wrapBlock x ++ tail) = true := by
  rw [wrapBlock_as_marker]
  have : pre ++ (mermaidMarker ++ (['\n'] ++ x ++ str "\n```")) ++ tail
      = pre ++ mermaidMarker ++ ((['\n'] ++ x ++ str "\n```") ++ tail) := by simp
  rw [this]
  exact subB_exists_of_eq

theorem rewriteAux_marker_or_id (g : Str → Str) : ∀ (fuel : Nat) (s : Str),
    subB mermaidMarker (rewriteBlocksAux g fuel s) = true ∨ rewriteBlocksAux g fuel s = s := by
  intro fuel s
  cases fuel with
  | zero => right; rfl
  | succ n =>
    cases h1 : splitFirst mermaidMarker s with
    | none => right; simp only [rewriteBlocksAux, h1]
    | some pr =>
      obtain ⟨pre, rest⟩ := pr
      cases h2 : splitFirst tickFence rest with
      | none => right; simp only [rewriteBlocksAux, h1, h2]
      | some ma =>
        obtain ⟨mid, after⟩ := ma
        left
        simp only [rewriteBlocksAux, h1, h2]
        exact subB_marker_of_wrap pre _ _

theorem rewriteAux_marker_of_blocks (g : Str → Str) : ∀ (fuel : Nat) (s : Str),
    blocksAux fuel s ≠ [] →
    subB mermaidMarker (rewriteBlocksAux g fuel s) = true := by
  intro fuel s hb
  cases fuel with
  | zero => exact absurd rfl hb
  | succ n =>
    cases h1 : splitFirst mermaidMarker s with
    | none => exfalso; apply hb; simp only [blocksAux, h1]
    | some pr =>
      obtain ⟨pre, rest⟩ := pr
      cases h2 : splitFirst tickFence rest with
      | none => exfalso; apply hb; simp only [blocksAux, h1, h2]
      | some ma =>
        obtain ⟨mid, after⟩ := ma
        simp only [rewriteBlocksAux, h1, h2]
        exact subB_marker_of_wrap pre _ _

theorem validatePass_marker {documentation : Str}
    (h : subB mermaidMarker documentation = true) :
    subB mermaidMarker (validatePass documentation) = true := by
  rcases rewriteAux_marker_or_id replaceBody documentation.length documentation with hm | hid
  · exact hm
  · show subB mermaidMarker (rewriteBlocksAux replaceBody documentation.length documentation) = true
    rw [hid]; exact h

theorem hasValidDiagrams_marker {documentation : Str}
    (h : hasValidDiagrams documentation = true) :
    subB mermaidMarker (validatePass documentation) = true := by
  apply rewriteAux_marker_of_blocks
  intro hnil
  simp only [hasValidDiagrams, blocksOf] at h
  rw [hnil] at h
  cases h

theorem subB_dropWhileWS {p : Str} (hp : p ≠ []) (hnws : ∀ c ∈ p, isPyWS c = false) :
    ∀ s : Str, subB p s = true → subB p (s.dropWhile isPyWS) = true := by
  intro s
  induction s with
  | nil => intro h; simpa using h
  | cons c rest ih =>
    intro h
    by_cases hc : isPyWS c = true
    · rw [List.dropWhile_cons, if_pos hc]
      apply ih
      simp only [subB, Bool.or_eq_true] at h
      rcases h with hpre | hsub
      · exfalso
        cases p with
        | nil => exact hp rfl
        | cons p0 ps =>
          rw [List.isPrefixOf_iff_prefix] at hpre
          obtain ⟨t, ht⟩ := hpre
          have : p0 = c := by
            have := congrArg (fun l => l.head?) ht
            simpa using this
          have h0 := hnws p0 (by simp)
          rw [this, hc] at h0
          cases h0
      · exact hsub
    · rw [List.dropWhile_cons, if_neg hc]
      exact h

theorem subB_reverse {p s : Str} (h : subB p s = true) :
    subB p.reverse s.reverse = true := by
  obtain ⟨u, v, rfl⟩ := exists_of_subB h
  have : (u ++ p ++ v).reverse = v.reverse ++ p.reverse ++ u.reverse := by simp
  rw [this]
  exact subB_exists_of_eq

theorem subB_stripWS {p s : Str} (hp : p ≠ []) (hnws : ∀ c ∈ p, isPyWS c = false)
    (h : subB p s = true) : subB p (stripWS s) = true := by
  have hpr : p.reverse ≠ [] := by simpa using hp
  have hnwsr : ∀ c ∈ p.reverse, isPyWS c = false := by
    intro c hc; exact hnws c (List.mem_reverse.mp hc)
  have h1 : subB p (dropLeftWS s) = true := subB_dropWhileWS hp hnws s h
  have h2 : subB p.reverse (dropLeftWS s).reverse = true := subB_reverse h1
  have h3 : subB p.reverse ((dropLeftWS s).reverse.dropWhile isPyWS) = true :=
    subB_dropWhileWS hpr hnwsr _ h2
  have h4 := subB_reverse h3
  rw [List.reverse_reverse] at h4
  exact h4

theorem subB_take_or_drop {p s : Str} (i : Nat)
    (hni : ∀ c ∈ p, c ≠ '\n')
    (hdrop : ∃ r, s.drop i = '\n' :: r)
    (h : subB p s = true) :
    subB p (s.take i) = true ∨ subB p (s.drop i) = true := by
  obtain ⟨u, v, rfl⟩ := exists_of_subB h
  rcases Nat.lt_or_ge i (u.length + 1) with hlt | hge
  · right
    have hle : i ≤ u.length := by omega
    have key : List.drop i (u ++ p ++ v) = List.drop i u ++ p ++ v := by
      rw [List.append_assoc, List.drop_append_eq_append_drop,
        Nat.sub_eq_zero_of_le hle, List.drop_zero, ← List.append_assoc]
    rw [key]
    exact subB_exists_of_eq
  · rcases Nat.lt_or_ge i (u.length + p.length) with hmid | hbig
    · exfalso
      obtain ⟨r, hr⟩ := hdrop
      have hu : u.length ≤ i := by omega
      have h0 := List.get?_drop (u ++ p ++ v) i 0
      rw [hr] at h0
      have hget : (u ++ p ++ v).get? i = some '\n' := by simpa using h0.symm
      have hgl : (u ++ p ++ v).get? i = (p ++ v).get? (i - u.length) := by
        rw [List.append_assoc]
        exact List.get?_append_right hu
      have hplt : i - u.length < p.length := by omega
      have hgp : (p ++ v).get? (i - u.length) = p.get? (i - u.length) :=
        List.get?_append hplt
      have hmem : p.get? (i - u.length) = some '\n' := by rw [← hgp, ← hgl]; exact hget
      exact hni '\n' (List.get?_mem hmem) rfl
    · left
      have hup : u.length + p.length ≤ i := by omega
      have key : List.take i (u ++ p ++ v) = u ++ p ++ List.take (i - (u.length + p.length)) v := by
        rw [List.take_append_eq_append_take,
          List.take_all_of_le (l := u ++ p) (by simp; omega)]
        simp
      rw [key]
      exact subB_exists_of_eq

theorem matchAnchoredAt_pos {hd : Str → Bool} {doc : Str} {i : Nat}
    (h : matchAnchoredAt hd doc i = true) :
    i = 0 ∨ ∃ r, doc.drop i = '\n' :: r := by
  simp only [matchAnchoredAt, Bool.or_eq_true, Bool.and_eq_true] at h
  rcases h with ⟨hi, _⟩ | hm
  · left; exact of_decide_eq_true hi
  · right
    cases hds : doc.drop i with
    | nil => rw [hds] at hm; cases hm
    | cons c r =>
      rw [hds] at hm
      simp only [Bool.and_eq_true, decide_eq_true_eq] at hm
      exact ⟨r, by rw [hm.1]⟩

theorem subB_of_nonnil {p s : Str} (hp : p ≠ []) (h : subB p s = true) : s ≠ [] := by
  obtain ⟨u, v, rfl⟩ := exists_of_subB h
  cases p with
  | nil => exact absurd rfl hp
  | cons c ps => simp

theorem subB_rebuildThinking {p : Str} (hp : p ≠ []) (hnws : ∀ c ∈ p, isPyWS c = false)
    (doc : Str) (pos : Nat)
    (hpos : pos = 0 ∨ ∃ r, doc.drop pos = '\n' :: r)
    (h : subB p doc = true) :
    subB p (rebuildThinking doc pos) = true := by
  have hni : ∀ c ∈ p, c ≠ '\n' := by
    intro c hc he
    have hw := hnws c hc
    rw [he] at hw
    cases hw
  rcases hpos with rfl | hdr
  · simp only [rebuildThinking, List.take_zero, List.drop_zero]
    have hse : stripWS ([] : Str) = [] := rfl
    rw [hse]
    simp only [if_pos]
    exact subB_stripWS hp hnws h
  · rcases subB_take_or_drop pos hni hdr h with htk | hdp
    · have hth : subB p (stripWS (doc.take pos)) = true := subB_stripWS hp hnws htk
      have hthne : stripWS (doc.take pos) ≠ [] := subB_of_nonnil hp hth
      simp only [rebuildThinking, if_neg hthne]
      exact subB_append_right _ hth
    · have hmn : subB p (stripWS (doc.drop pos)) = true := subB_stripWS hp hnws hdp
      by_cases hte : stripWS (doc.take pos) = []
      · simp only [rebuildThinking, if_pos hte]
        exact hmn
      · simp only [rebuildThinking, if_neg hte]
        exact subB_append_left _ (subB_append_left _ hmn)

theorem subB_separate_thinking {p : Str} (hp : p ≠ []) (hnws : ∀ c ∈ p, isPyWS c = false)
    (doc : Str) (h : subB p doc = true) :
    subB p (separate_thinking_process doc) = true := by
  have hfind : ∀ (hd : Str → Bool) (pos : Nat), findMatchPos hd doc = some pos →
      (pos = 0 ∨ ∃ r, doc.drop pos = '\n' :: r) := by
    intro hd pos hf
    exact matchAnchoredAt_pos (List.find?_some hf)
  unfold separate_thinking_process
  cases h1 : findMatchPos headTitle doc with
  | some pos => exact subB_rebuildThinking hp hnws doc pos (hfind _ _ h1) h
  | none =>
    cases h2 : findMatchPos headHeading doc with
    | some pos => exact subB_rebuildThinking hp hnws doc pos (hfind _ _ h2) h
    | none => exact h

/-- External outcomes reaching one `generate_documentation` call: selector
membership and key presence (as in `AEnv`), the outcomes of the four
possible LLM calls (`llm_selector.generate_text`, direct
`generate_with_groq`, the `generate_with_groq` inside
`_fallback_to_groq_for_documentation`, and the diagram-enhancement
`generate_with_groq`), the MCP enrichment outcome, and the external
tabbed-diagram transform `enhance_markdown_with_tabs` (`.error` = the call
raised, in which case the original text is kept). -/
structure GEnv where
  provider_in_selector : Bool
  groq_key : Bool
  selector_doc : Except Str Str
  groq_doc : Except Str Str
  fallback_doc : Except Str Str
  enhance_doc : Except Str Str
  mcp : Except Str StructuredData
  tabsF : Str → Except Str Str

/-- The basic program-flow diagram appended when no diagram exists
(lines 591-600). -/
def basicFlowchart : Str :=
  str "```mermaid\nflowchart TD\n    Start([Start Program]) --> Init[Initialize Variables]\n    Init --> Process[Process Data]\n    Process --> Decision\x7bDecision Point\x7d\n    Decision -->|Yes| Success[Success Path]\n    Decision -->|No| Failure[Failure Path]\n    Success --> End([End Program])\n    Failure --> End\n```"

/-- The fixed no-API-key error document of
`_fallback_to_groq_for_documentation` (lines 805-818). -/
def noKeyDoc : Str :=
  str "\n# COBOL Program Documentation\n\n## Error: API Key Missing\n\nDocumentation generation failed because no Groq API key is available.\n\nPlease configure a GROQ_API_KEY in your environment settings.\n\n```mermaid\nflowchart TD\n    Error[Error: No API Keys] --> Action[Please configure API keys]\n```\n"

/-- The fixed Groq-error document (lines 832-840); note it contains NO
fenced mermaid block. -/
def groqErrorDoc (e : Str) : Str :=
  str "\n# COBOL Program Documentation\n\n## Error: Groq API Error\n\nDocumentation generation failed due to an error with the Groq API: "
  ++ e
  ++ str "\n\nPlease check your GROQ_API_KEY and try again.\n"

/-- `_fallback_to_groq_for_documentation` (lines 792-840): never raises. -/
def fallback_to_groq_for_documentation (env : GEnv) : Str :=
  if !env.groq_key then noKeyDoc
  else
    match env.fallback_doc with
    | .ok documentation => documentation
    | .error e => groqErrorDoc e

/-- `_enhance_with_diagrams` (lines 537-743): validation pass over existing
blocks, fallback basic diagram when no block (and no marker) remains,
then the optional LLM enhancement with bounded correction and the
count-gated acceptance.  The outer `except` (line 739) is unreachable in
this model: the validator and the collaborators are total and the only
raising call (`generate_with_groq`) is caught by the inner `except` at
line 725 (which keeps the current documentation). -/
def enhance_with_diagrams (env : GEnv) (prefs : Prefs) (_structured_data : StructuredData)
    (documentation : Str) : Str :=
  let doc1 := validatePass documentation
  let hv := hasValidDiagrams documentation
  let doc2 :=
    if !hv && !(subB mermaidMarker doc1)
    then doc1 ++ str "\n\n## Program Flow Diagram\n\n" ++ basicFlowchart ++ str "\n"
    else doc1
  let provider_preference := get_user_preference prefs (str "llm_provider") (.s (str "groq"))
  if pvTruthy (get_user_preference prefs (str "enhanced_diagrams") (.b true))
      && pvTruthy provider_preference then
    match env.enhance_doc with
    | .error _ => doc2
    | .ok e0 => if e0 = [] then doc2 else enhanceAccept doc2 e0
  else doc2

/-- Per-construct sections of `_add_mcp_explanations` (lines 866-870). -/
def constructSections : List (Str × Option Str) → Str
  | [] => []
  | (construct, expl) :: rest =>
    (match expl with
     | some e =>
       if e ≠ [] then str "### " ++ construct ++ str " Construct\n\n" ++ e ++ str "\n\n"
       else []
     | none => [])
    ++ constructSections rest

/-- Visual-element sections of `_add_mcp_explanations` (lines 873-876):
the heading uses `element_data.get('explanation', element_name)`. -/
def visualSections : List (Str × VisualElem) → Str
  | [] => []
  | (element_name, ve) :: rest =>
    (match ve.visual_element with
     | some vis =>
       str "### " ++ (match ve.explanation with
                      | some e => e
                      | none => element_name)
       ++ str "\n\n" ++ vis ++ str "\n\n"
     | none => [])
    ++ visualSections rest

/-- Appended `Simplified Explanations` text of `_add_mcp_explanations`:
program explanation, per-construct sections, visual elements
(lines 855-877). -/
def mcpSection (sd : StructuredData) : Str :=
  str "\n\n## Simplified Explanations\n\n"
  ++ str "*The following explanations are designed for non-technical readers:*\n\n"
  ++ (match sd.mcp_explanation with
      | some m =>
        (match m.explanation with
         | some e => if e ≠ [] then e ++ str "\n\n" else []
         | none => [])
      | none => [])
  ++ constructSections (sd.construct_explanations.getD [])
  ++ visualSections (sd.visual_elements.getD [])

/-- `_add_mcp_explanations` (lines 842-894): purely additive. -/
def add_mcp_explanations (documentation : Str) (sd : StructuredData) : Str :=
  documentation ++ mcpSection sd

/-- Raw composition step of `generate_documentation` (lines 324-353):
selector call (exceptions propagate to the outer handler), direct Groq call
(falling back to `_fallback_to_groq_for_documentation` on error), or the
fallback path. -/
def composeRaw (env : GEnv) (prefs : Prefs) : Except Str Str :=
  let current_provider := get_user_preference prefs (str "llm_provider") (.s (str "groq"))
  if env.provider_in_selector then env.selector_doc
  else if pvEqStr current_provider (str "groq") && env.groq_key then
    match env.groq_doc with
    | .ok documentation => .ok documentation
    | .error _ => .ok (fallback_to_groq_for_documentation env)
  else .ok (fallback_to_groq_for_documentation env)

/-- Conditional diagram enhancement (line 363): run when no mermaid marker
is present or the `enhanced_diagrams` preference (default `False` here) is
truthy. -/
def enhanceStep (env : GEnv) (prefs : Prefs) (sd : StructuredData)
    (documentation : Str) : Str :=
  if !(subB mermaidMarker documentation)
      || pvTruthy (get_user_preference prefs (str "enhanced_diagrams") (.b false))
  then enhance_with_diagrams env prefs sd documentation
  else documentation

/-- Conditional MCP explanations (lines 367-368). -/
def mcpStep (prefs : Prefs) (sd : StructuredData) (documentation : Str) : Str :=
  if !(pvEqStr (get_user_preference prefs (str "audience") (.s (str "technical")))
        (str "technical"))
      && sd.construct_explanations.isSome
  then add_mcp_explanations documentation sd
  else documentation

/-- External `enhance_markdown_with_tabs` (lines 378-383): original text
kept when the collaborator raises. -/
def tabsStep (env : GEnv) (documentation : Str) : Str :=
  match env.tabsF documentation with
  | .ok enhanced => enhanced
  | .error _ => documentation

/-- Post-processing chain of `generate_documentation` (lines 355-383):
quality evaluation (observability only), conditional diagram enhancement
(line 363), conditional MCP explanations (line 367), thinking-process
separation (line 372, its wrapper `except` is unreachable since the
embedded transform is total), and the external tabbed-diagram transform
(line 380). -/
def postProcess (env : GEnv) (prefs : Prefs) (sd : StructuredData)
    (documentation : Str) : Str :=
  let _quality := evaluate_documentation_quality documentation
  tabsStep env
    (separate_thinking_process (mcpStep prefs sd (enhanceStep env prefs sd documentation)))

/-- `generate_documentation(structured_data)` (lines 237-397): MCP
enrichment (original data kept on error), composition, post-processing, and
the outer `except ... raise` (modelled as `.error` pass-through). -/
def generate_documentation (env : GEnv) (prefs : Prefs)
    (structured_data : StructuredData) : Except Str Str :=
  let sd := match env.mcp with
            | .ok enriched => enriched
            | .error _ => structured_data
  match composeRaw env prefs with
  | .error e => .error e
  | .ok documentation => .ok (postProcess env prefs sd documentation)

theorem enhanceAccept_marker {d e0 : Str} (hd : subB mermaidMarker d = true) :
    subB mermaidMarker (enhanceAccept d e0) = true := by
  unfold enhanceAccept
  by_cases hc : 0 < countSub mermaidMarker (fixLoop e0)
  · rw [if_pos hc]; exact subB_of_countSub_pos hc
  · rw [if_neg hc]; exact hd

theorem ifAccept_marker {d2 e0 : Str} {c : Prop} [Decidable c]
    (hd : subB mermaidMarker d2 = true) :
    subB mermaidMarker (if c then d2 else enhanceAccept d2 e0) = true := by
  split
  · exact hd
  · exact enhanceAccept_marker hd

theorem doc2_marker (documentation : Str) :
    subB mermaidMarker
      (if !(hasValidDiagrams documentation)
          && !(subB mermaidMarker (validatePass documentation))
       then validatePass documentation ++ str "\n\n## Program Flow Diagram\n\n"
            ++ basicFlowchart ++ str "\n"
       else validatePass documentation) = true := by
  have hbasic : subB mermaidMarker basicFlowchart = true := by decide
  by_cases hm : subB mermaidMarker (validatePass documentation) = true
  · simp [hm]
  · have hmb : subB mermaidMarker (validatePass documentation) = false :=
      Bool.eq_false_iff.mpr hm
    have hv : hasValidDiagrams documentation = false := by
      cases hh : hasValidDiagrams documentation with
      | false => rfl
      | true => rw [hasValidDiagrams_marker hh] at hmb; cases hmb
    rw [hmb, hv]
    simp only [Bool.not_false, Bool.and_self, if_pos rfl]
    exact subB_append_left _ (subB_append_right _ hbasic)

theorem enhance_with_diagrams_marker (env : GEnv) (prefs : Prefs) (sd : StructuredData)
    (documentation : Str) :
    subB mermaidMarker (enhance_with_diagrams env prefs sd documentation) = true := by
  simp only [enhance_with_diagrams]
  split
  · split
    · exact doc2_marker documentation
    · exact ifAccept_marker (doc2_marker documentation)
  · exact doc2_marker documentation

theorem enhanceStep_marker (env : GEnv) (prefs : Prefs) (sd : StructuredData)
    (documentation : Str) :
    subB mermaidMarker (enhanceStep env prefs sd documentation) = true := by
  unfold enhanceStep
  split
  · exact enhance_with_diagrams_marker env prefs sd documentation
  · rename_i hcond
    by_contra hne
    have hf : subB mermaidMarker documentation = false := Bool.eq_false_iff.mpr hne
    apply hcond
    rw [hf]
    simp

theorem mcpStep_marker (prefs : Prefs) (sd : StructuredData) {documentation : Str}
    (h : subB mermaidMarker documentation = true) :
    subB mermaidMarker (mcpStep prefs sd documentation) = true := by
  unfold mcpStep
  split
  · exact subB_append_left _ h
  · exact h

theorem postProcess_marker (env : GEnv) (prefs : Prefs) (sd : StructuredData)
    (documentation : Str)
    (htabs : ∀ s t, env.tabsF s = .ok t →
      subB mermaidMarker s = true → subB mermaidMarker t = true) :
    subB mermaidMarker (postProcess env prefs sd documentation) = true := by
  have h1 := enhanceStep_marker env prefs sd documentation
  have h2 := mcpStep_marker prefs sd h1
  have h3 : subB mermaidMarker
      (separate_thinking_process (mcpStep prefs sd (enhanceStep env prefs sd documentation)))
      = true :=
    subB_separate_thinking (by decide) (by decide) _ h2
  show subB mermaidMarker (tabsStep env _) = true
  unfold tabsStep
  cases ht : env.tabsF
      (separate_thinking_process (mcpStep prefs sd (enhanceStep env prefs sd documentation))) with
  | ok t => exact htabs _ t ht h3
  | error e => exact h3

/-- C1 amended: every documentation value actually RETURNED by
`generate_documentation` contains at least one occurrence of the
```` ```mermaid ```` fence marker (assuming the external tabbed-diagram
collaborator preserves it, as a purely additive transform does) — but not
necessarily a complete, let alone syntactically valid, fenced diagram
block: when a marker is already present, validation and enhancement are
skipped entirely (line 363). -/
theorem generated_documentation_has_mermaid_fence :
    ∀ (env : GEnv) (prefs : Prefs) (structured_data : StructuredData) (d : Str),
      (∀ s t, env.tabsF s = .ok t →
        subB mermaidMarker s = true → subB mermaidMarker t = true) →
      generate_documentation env prefs structured_data = .ok d →
      subB mermaidMarker d = true := by
  intro env prefs structured_data d htabs hgen
  unfold generate_documentation at hgen
  cases hc : composeRaw env prefs with
  | error e => rw [hc] at hgen; cases hgen
  | ok documentation =>
    rw [hc] at hgen
    have hd : d = postProcess env prefs
        (match env.mcp with
         | .ok enriched => enriched
         | .error _ => structured_data) documentation := by
      cases hgen; rfl
    rw [hd]
    exact postProcess_marker env prefs _ documentation htabs

/-- Witness for C1 amended: a selector-produced document consisting of one
well-formed block flows through the skip path unchanged. -/
theorem generated_documentation_has_mermaid_fence_witness :
    subB mermaidMarker (str "```mermaid\nflowchart TD\n    A --> B\n```") = true :=
  generated_documentation_has_mermaid_fence
    ⟨true, false, .ok (str "```mermaid\nflowchart TD\n    A --> B\n```"),
      .error [], .error [], .error [], .error [], fun _ => .error []⟩
    [] {} (str "```mermaid\nflowchart TD\n    A --> B\n```")
    (fun _ _ h _ => Except.noConfusion h)
    rfl

/-- C1 counterexample: with the preferred provider registered, the selector
returning a text that contains a ```` ```mermaid ```` marker but NO complete
fenced block (no closing fence and hence nothing that could satisfy the five
rules), `enhanced_diagrams` unset, and the tab collaborator failing, the
validation/enhancement pass is skipped because the marker is present
(line 363) and the text is returned with ZERO complete fenced mermaid
blocks — so the returned documentation contains no syntactically valid
fenced diagram block at all. -/
theorem generated_documentation_without_valid_block :
    generate_documentation
        ⟨true, false, .ok (str "Intro text\n```mermaid"),
          .error [], .error [], .error [], .error [], fun _ => .error []⟩
        [] {}
      = .ok (str "Intro text\n```mermaid")
    ∧ blocksOf (str "Intro text\n```mermaid") = [] := by
  exact ⟨rfl, by decide⟩
